import Mathlib

/-!
Shallow embedding of the audio-analysis core of the baby-cry-analysis
repository (`backend/app/audio/cry_detector.py`,
`backend/app/audio/cry_unit_detector.py`,
`backend/app/audio/acoustic_analyzer.py`,
`backend/app/tasks/analysis_tasks.py`).

Real-valued quantities are modelled over `ℚ` (exact arithmetic).  Values
produced by external numeric libraries (librosa RMS / spectral centroid /
zero-crossing-rate, numpy FFT) are irrational in general and are therefore
taken as explicit inputs or oracle functions; every arithmetic step performed
by the repository's own Python code is modelled exactly.
-/

namespace BabyCry

/-- A `(start_time, end_time, confidence)` tuple as produced by
`CryDetector._detect_cry_segments`. -/
structure Seg where
  s : ℚ
  e : ℚ
  c : ℚ
  deriving Repr, DecidableEq

/-- `CryEpisode` dataclass of `cry_detector.py`. -/
structure CryEpisode where
  start_time : ℚ
  end_time : ℚ
  duration : ℚ
  confidence : ℚ
  deriving Repr, DecidableEq

/-- `np.mean` of a list (sum divided by length; the repository only applies it
to non-empty lists). -/
def npMean (l : List ℚ) : ℚ := l.sum / l.length

/-- Configuration of `CryDetector.__init__` (defaults: sr 22050, threshold
0.02, min_duration 0.5, max_gap 1.0, band [200, 5000]). -/
structure CryDetectorCfg where
  sr : ℕ
  energy_threshold : ℚ
  min_duration : ℚ
  max_gap : ℚ
  freq_min : ℚ
  freq_max : ℚ
  deriving Repr, DecidableEq

def defaultDetectorCfg : CryDetectorCfg :=
  { sr := 22050, energy_threshold := 2/100, min_duration := 1/2,
    max_gap := 1, freq_min := 200, freq_max := 5000 }

/-- `CryDetector._is_cry_frame` applied to one frame:
`energy > threshold AND freq_min <= centroid <= freq_max`. -/
def isCryFrame (cfg : CryDetectorCfg) (energy centroid : ℚ) : Bool :=
  decide (energy > cfg.energy_threshold) &&
    (decide (centroid ≥ cfg.freq_min) && decide (centroid ≤ cfg.freq_max))

/-- Frame hop duration `hop_length / sr` with `hop_length = 512`. -/
def frameDuration (sr : ℕ) : ℚ := 512 / (sr : ℚ)

/-- Close the current run of cry frames (the body of the
`elif not cry and in_segment` branch and of the trailing `if in_segment`
block of `_detect_cry_segments`): keep the segment iff its duration reaches
`min_duration`; confidence is the run's mean energy normalised by the
threshold, capped at 1. -/
def closeSegment (cfg : CryDetectorCfg) (offset : ℚ) (segStart i : ℕ)
    (energySum : ℚ) (frames : ℕ) : List Seg :=
  let fd := frameDuration cfg.sr
  if (frames : ℚ) * fd ≥ cfg.min_duration then
    [{ s := offset + (segStart : ℚ) * fd,
       e := offset + (i : ℚ) * fd,
       c := min (energySum / (frames : ℚ) / cfg.energy_threshold) 1 }]
  else []

/-- The frame loop of `_detect_cry_segments`.  `i` is the current frame
index; the running state is `none` outside a run and
`some (segStart, energySum, frames)` inside one.  The input list pairs each
frame's RMS energy with its spectral centroid (both librosa outputs, same
frame count). -/
def detectLoop (cfg : CryDetectorCfg) (offset : ℚ) :
    ℕ → Option (ℕ × ℚ × ℕ) → List (ℚ × ℚ) → List Seg
  | i, none, [] => (fun _ => []) i
  | i, some st, [] => closeSegment cfg offset st.1 i st.2.1 st.2.2
  | i, none, f :: rest =>
      if isCryFrame cfg f.1 f.2 then
        detectLoop cfg offset (i + 1) (some (i, f.1, 1)) rest
      else
        detectLoop cfg offset (i + 1) none rest
  | i, some st, f :: rest =>
      if isCryFrame cfg f.1 f.2 then
        detectLoop cfg offset (i + 1) (some (st.1, st.2.1 + f.1, st.2.2 + 1)) rest
      else
        closeSegment cfg offset st.1 i st.2.1 st.2.2 ++
          detectLoop cfg offset (i + 1) none rest

/-- `CryDetector._detect_cry_segments`: run-length encode the cry frames of
one chunk into `(start, end, confidence)` segments.  `frames` is the list of
`(rms_energy, spectral_centroid)` pairs for the chunk (librosa outputs,
abstracted as input), `offset` the chunk's start time. -/
def detectCrySegments (cfg : CryDetectorCfg) (frames : List (ℚ × ℚ))
    (offset : ℚ) : List Seg :=
  detectLoop cfg offset 0 none frames

/-- Python's stable `sorted(segments, key=lambda x: x[0])`. -/
def sortByStart (segs : List Seg) : List Seg :=
  segs.insertionSort (fun a b => a.s ≤ b.s)

/-- The merge loop of `_merge_segments_to_episodes`: running episode
`[cs, ce]` with constituent confidences `confs` (in order), remaining sorted
segments as the last argument. -/
def mergeLoop (maxGap : ℚ) : ℚ → ℚ → List ℚ → List Seg → List CryEpisode
  | cs, ce, confs, [] =>
      [{ start_time := cs, end_time := ce, duration := ce - cs,
         confidence := npMean confs }]
  | cs, ce, confs, seg :: rest =>
      if seg.s - ce ≤ maxGap then
        mergeLoop maxGap cs seg.e (confs ++ [seg.c]) rest
      else
        { start_time := cs, end_time := ce, duration := ce - cs,
          confidence := npMean confs } ::
          mergeLoop maxGap seg.s seg.e [seg.c] rest

/-- `CryDetector._merge_segments_to_episodes`: sort the segments by start
time and merge consecutive ones whose gap is at most `maxGap`. -/
def mergeSegmentsToEpisodes (maxGap : ℚ) (segs : List Seg) : List CryEpisode :=
  match sortByStart segs with
  | [] => []
  | s0 :: rest => mergeLoop maxGap s0.s s0.e [s0.c] rest

/-- The segment-producing part of `CryDetector.detect_from_file`: each chunk
contributes its `(energy, centroid)` frame list and its time offset; the
concatenated segment list is merged into episodes. -/
def detectFromChunks (cfg : CryDetectorCfg)
    (chunks : List (List (ℚ × ℚ) × ℚ)) : List CryEpisode :=
  mergeSegmentsToEpisodes cfg.max_gap
    (chunks.flatMap (fun p => detectCrySegments cfg p.1 p.2))

/-- Python `int()` applied to a rational: truncation toward zero. -/
def pyInt (q : ℚ) : ℤ := if 0 ≤ q then ⌊q⌋ else ⌈q⌉

/-- Normalisation of one Python slice index against a list of length `n`
(negative indices count from the end; out-of-range indices clamp). -/
def pySliceIndex (n : ℕ) (i : ℤ) : ℕ :=
  if i < 0 then ((n : ℤ) + i).toNat else min i.toNat n

/-- Python slicing `l[a:b]`. -/
def pySlice (l : List α) (a b : ℤ) : List α :=
  (l.drop (pySliceIndex l.length a)).take (pySliceIndex l.length b - pySliceIndex l.length a)

/-- `CryUnit` dataclass of `cry_unit_detector.py`. -/
structure CryUnit where
  start_time : ℚ
  end_time : ℚ
  duration : ℚ
  is_voiced : Bool
  mean_energy : ℚ
  peak_frequency : ℚ
  deriving Repr, DecidableEq

/-- Configuration of `CryUnitDetector.__init__` (defaults: sr 22050,
silence_threshold 0.01, min_unit_duration 0.1, min_silence_duration 0.05,
voiced_threshold 0.3 — the last is unused by the code). -/
structure CryUnitCfg where
  sr : ℕ
  silence_threshold : ℚ
  min_unit_duration : ℚ
  min_silence_duration : ℚ
  voiced_threshold : ℚ
  deriving Repr, DecidableEq

def defaultUnitCfg : CryUnitCfg :=
  { sr := 22050, silence_threshold := 1/100, min_unit_duration := 1/10,
    min_silence_duration := 5/100, voiced_threshold := 3/10 }

/-- Oracle for the external numeric library calls whose values are irrational
in general: `librosa.feature.zero_crossing_rate(...).mean()` of a buffer, and
the argmax index of the one-sided FFT magnitude spectrum (`np.fft.rfft` then
`np.argmax`). -/
structure AudioOracle where
  meanZcr : List ℚ → ℚ
  fftPeakIdx : List ℚ → ℕ

/-- Mean of squared samples, `np.mean(audio ** 2)`.  The code computes the
RMS `np.sqrt` of this; since `√` is irrational we model every comparison
`rms < t` (for `t ≥ 0`) by the equivalent `meanSq < t²`. -/
def meanSq (audio : List ℚ) : ℚ := (audio.map (fun x => x ^ 2)).sum / audio.length

/-- `CryUnitDetector._classify_voicing`: buffers shorter than 20 ms are
unvoiced; otherwise voiced iff mean zero-crossing rate < 0.1 and RMS energy
`√(meanSq) ≥ 0.01` (the latter modelled as `meanSq ≥ 0.01² = 1/10000`). -/
def classifyVoicing (cfg : CryUnitCfg) (audio : List ℚ) (zcrMean : ℚ) : Bool :=
  if (audio.length : ℚ) < (cfg.sr : ℚ) * (2/100) then false
  else decide (zcrMean < 1/10) && !decide (meanSq audio < 1/10000)

/-- `CryUnitDetector._estimate_peak_frequency`: 0 for buffers shorter than
512 samples, else `argmax(|rfft|) * sr / (2 * len(rfft))` with
`len(rfft) = n/2 + 1`. -/
def estimatePeakFrequency (cfg : CryUnitCfg) (orc : AudioOracle)
    (audio : List ℚ) : ℚ :=
  if audio.length < 512 then 0
  else ((orc.fftPeakIdx audio : ℚ) * (cfg.sr : ℚ)) / (2 * ((audio.length / 2 + 1 : ℕ) : ℚ))

/-- The frame loop of `CryUnitDetector._find_silence_segments`; state is
`none` outside a silence run and `some start_index` inside one. -/
def silenceLoop (cfg : CryUnitCfg) (fd : ℚ) :
    ℕ → Option ℕ → List Bool → List (ℚ × ℚ)
  | i, none, [] => (fun _ => []) i
  | i, some s, [] =>
      if ((i : ℚ) - (s : ℚ)) * fd ≥ cfg.min_silence_duration then
        [((s : ℚ) * fd, (i : ℚ) * fd)]
      else []
  | i, none, b :: rest =>
      if b then silenceLoop cfg fd (i + 1) (some i) rest
      else silenceLoop cfg fd (i + 1) none rest
  | i, some s, b :: rest =>
      if b then silenceLoop cfg fd (i + 1) (some s) rest
      else
        (if ((i : ℚ) - (s : ℚ)) * fd ≥ cfg.min_silence_duration then
          [((s : ℚ) * fd, (i : ℚ) * fd)]
        else []) ++ silenceLoop cfg fd (i + 1) none rest

/-- `CryUnitDetector._find_silence_segments`. -/
def findSilenceSegments (cfg : CryUnitCfg) (silenceFrames : List Bool)
    (fd : ℚ) : List (ℚ × ℚ) :=
  silenceLoop cfg fd 0 none silenceFrames

/-- The fold of `CryUnitDetector._determine_unit_boundaries` over the silence
segments, with `cur` the running unit start. -/
def boundLoop (total : ℚ) : ℚ → List (ℚ × ℚ) → List (ℚ × ℚ)
  | cur, [] => if cur < total then [(cur, total)] else []
  | cur, sseg :: rest =>
      (if sseg.1 > cur then [(cur, sseg.1)] else []) ++ boundLoop total sseg.2 rest

/-- `CryUnitDetector._determine_unit_boundaries`. -/
def determineUnitBoundaries (silenceSegments : List (ℚ × ℚ))
    (total : ℚ) : List (ℚ × ℚ) :=
  match silenceSegments with
  | [] => [(0, total)]
  | _ => boundLoop total 0 silenceSegments

/-- The per-boundary loop of `detect_units_in_episode`: duration filter,
unit audio extraction (skipping empty slices), voicing classification, mean
envelope energy and peak frequency. -/
def unitsOfBoundaries (cfg : CryUnitCfg) (orc : AudioOracle)
    (episodeAudio energy : List ℚ) (epStart : ℚ) (fd : ℚ) :
    List (ℚ × ℚ) → List CryUnit
  | [] => []
  | (us, ue) :: rest =>
      let absS := epStart + us
      let absE := epStart + ue
      if absE - absS < cfg.min_unit_duration then
        unitsOfBoundaries cfg orc episodeAudio energy epStart fd rest
      else
        let unitAudio := pySlice episodeAudio (pyInt (us * cfg.sr)) (pyInt (ue * cfg.sr))
        if unitAudio.isEmpty then
          unitsOfBoundaries cfg orc episodeAudio energy epStart fd rest
        else
          let unitEnergyFrames := pySlice energy (pyInt (us / fd)) (pyInt (ue / fd))
          { start_time := absS, end_time := absE, duration := absE - absS,
            is_voiced := classifyVoicing cfg unitAudio (orc.meanZcr unitAudio),
            mean_energy := if unitEnergyFrames.length > 0 then npMean unitEnergyFrames else 0,
            peak_frequency := estimatePeakFrequency cfg orc unitAudio } ::
            unitsOfBoundaries cfg orc episodeAudio energy epStart fd rest

/-- `CryUnitDetector.detect_units_in_episode`.  `y` is the full audio buffer;
`energy` is the smoothed RMS envelope of the extracted episode slice
(`librosa.feature.rms` followed by `scipy.signal.savgol_filter`, abstracted
as an input since RMS values are irrational in general; with librosa's
default centred framing its length is `1 + n / 512` for an `n`-sample
slice, see `rmsNumFrames`). -/
def detectUnitsInEpisode (cfg : CryUnitCfg) (orc : AudioOracle)
    (y energy : List ℚ) (epStart epEnd : ℚ) : List CryUnit :=
  let episodeAudio := pySlice y (pyInt (epStart * cfg.sr)) (pyInt (epEnd * cfg.sr))
  if episodeAudio.isEmpty then []
  else
    let fd := frameDuration cfg.sr
    let silenceFrames := energy.map (fun e => decide (e < cfg.silence_threshold))
    let segs := findSilenceSegments cfg silenceFrames fd
    let total := (energy.length : ℚ) * fd
    let bounds := determineUnitBoundaries segs total
    unitsOfBoundaries cfg orc episodeAudio energy epStart fd bounds

/-- Number of frames produced by `librosa.feature.rms(y, hop_length=512)`
with the default `frame_length=2048, center=True` on an `n`-sample buffer:
`1 + n // 512`. -/
def rmsNumFrames (n : ℕ) : ℕ := 1 + n / 512

/-- `CryUnitDetector.calculate_cry_unit_metrics`. -/
def calculateCryUnitMetrics (units : List CryUnit) : ℚ × ℚ :=
  if units.isEmpty then (0, 0)
  else
    let voicedUnits := units.filter (fun u => u.is_voiced)
    let cryCE := if voicedUnits.isEmpty then 0
      else npMean (voicedUnits.map (fun u => u.duration))
    let unvoicedUnits := units.filter (fun u => !u.is_voiced)
    let unvoicedCE := if unvoicedUnits.isEmpty then 0
      else (unvoicedUnits.map (fun u => u.duration)).sum
    (cryCE, unvoicedCE)

/-- `AcousticFeatures` dataclass of `acoustic_analyzer.py`: all measures
except `time` are optional (`None` when undefined at that frame). -/
structure AcousticFeatures where
  time : ℚ
  f0 : Option ℚ
  f1 : Option ℚ
  f2 : Option ℚ
  f3 : Option ℚ
  hnr : Option ℚ
  shimmer : Option ℚ
  jitter : Option ℚ
  intensity : Option ℚ
  deriving Repr, DecidableEq

/-- The eight parameter keys of `compute_statistics`. -/
inductive Param
  | f0 | f1 | f2 | f3 | hnr | shimmer | jitter | intensity
  deriving Repr, DecidableEq

/-- `getattr(f, param)`. -/
def getParam : Param → AcousticFeatures → Option ℚ
  | .f0, f => f.f0
  | .f1, f => f.f1
  | .f2, f => f.f2
  | .f3, f => f.f3
  | .hnr, f => f.hnr
  | .shimmer, f => f.shimmer
  | .jitter, f => f.jitter
  | .intensity, f => f.intensity

/-- Population variance `np.mean((x - mean)²)`; `np.std` is its square
root.  Since `√` is irrational over `ℚ` the `std` field below records this
variance (the square of `np.std`); definedness and the set of samples used
are exactly those of the code. -/
def npVariance (l : List ℚ) : ℚ :=
  (l.map (fun x => (x - npMean l) ^ 2)).sum / l.length

/-- `np.min` of a non-empty list. -/
def npMin : List ℚ → ℚ
  | [] => 0
  | a :: t => t.foldl min a

/-- `np.max` of a non-empty list. -/
def npMax : List ℚ → ℚ
  | [] => 0
  | a :: t => t.foldl max a

/-- `np.median`: middle element of the sorted list, or the mean of the two
middle elements for even length. -/
def npMedian (l : List ℚ) : ℚ :=
  let sorted := l.insertionSort (fun a b => a ≤ b)
  let n := l.length
  if n % 2 = 1 then sorted.getD (n / 2) 0
  else (sorted.getD (n / 2 - 1) 0 + sorted.getD (n / 2) 0) / 2

/-- One entry of the dict returned by `compute_statistics` (`std` records
the variance, see `npVariance`). -/
structure ParamStats where
  mean : Option ℚ
  std : Option ℚ
  min : Option ℚ
  max : Option ℚ
  median : Option ℚ
  deriving Repr, DecidableEq

/-- `AcousticAnalyzer.compute_statistics` for one parameter: collect the
defined values (`is not None` filter) and compute the five statistics, or
return all-`None` when no value is defined. -/
def computeStatisticsFor (featuresList : List AcousticFeatures)
    (p : Param) : ParamStats :=
  let values := featuresList.filterMap (getParam p)
  if values.isEmpty then
    { mean := none, std := none, min := none, max := none, median := none }
  else
    { mean := some (npMean values), std := some (npVariance values),
      min := some (npMin values), max := some (npMax values),
      median := some (npMedian values) }

/-- `AcousticAnalyzer.compute_statistics` (the returned dict, as a function
of the parameter key). -/
def computeStatistics (featuresList : List AcousticFeatures) :
    Param → ParamStats :=
  fun p => computeStatisticsFor featuresList p

/-- Round to the nearest integer, ties to even — the rounding used by
Python's `round`. -/
def roundHalfEven (x : ℚ) : ℤ :=
  if x - ⌊x⌋ < 1/2 then ⌊x⌋
  else if 1/2 < x - ⌊x⌋ then ⌊x⌋ + 1
  else if 2 ∣ ⌊x⌋ then ⌊x⌋ else ⌊x⌋ + 1

/-- Python `round(q, 2)` (idealised over exact rationals). -/
def pyRound2 (q : ℚ) : ℚ := (roundHalfEven (q * 100) : ℚ) / 100

/-- The dict returned by `compute_special_parameters`. -/
structure SpecialParams where
  high_pitch_pct : ℚ
  hyper_phonation_pct : ℚ
  voiced_pct : ℚ
  unvoiced_pct : ℚ
  deriving Repr, DecidableEq

/-- `AcousticAnalyzer.compute_special_parameters`. -/
def computeSpecialParameters (featuresList : List AcousticFeatures)
    (highPitchThreshold : ℚ := 500) : SpecialParams :=
  let totalFrames := featuresList.length
  if totalFrames = 0 then
    { high_pitch_pct := 0, hyper_phonation_pct := 0,
      voiced_pct := 0, unvoiced_pct := 0 }
  else
    let highPitchCount := featuresList.countP (fun f =>
      match f.f0 with
      | some v => decide (v > highPitchThreshold)
      | none => false)
    let hyperPhonationCount := featuresList.countP (fun f =>
      (match f.hnr with | some v => decide (v < 10) | none => false) &&
      (match f.shimmer with | some v => decide (v > 5) | none => false) &&
      (match f.jitter with | some v => decide (v > 1) | none => false))
    let voicedCount := featuresList.countP (fun f => f.f0.isSome)
    let unvoicedCount := totalFrames - voicedCount
    { high_pitch_pct := pyRound2 ((highPitchCount : ℚ) / (totalFrames : ℚ) * 100),
      hyper_phonation_pct := pyRound2 ((hyperPhonationCount : ℚ) / (totalFrames : ℚ) * 100),
      voiced_pct := pyRound2 ((voicedCount : ℚ) / (totalFrames : ℚ) * 100),
      unvoiced_pct := pyRound2 ((unvoicedCount : ℚ) / (totalFrames : ℚ) * 100) }

/-- The worker-visible database state for one audio file in
`analyze_audio_file` (`analysis_tasks.py`): the file's `status` column and
the list of persisted `AnalysisResult` rows for it (each row holding the
per-episode result payloads of one completed job). -/
structure AnalysisDbState (ρ : Type) where
  status : String
  savedResults : List (List ρ)
  deriving Repr, DecidableEq

/-- The per-episode loop of `analyze_audio_file`: analyse episodes in order
(`analyzeEpisode i ep` abstracts the acoustic analysis, statistics, special
parameters and cry-unit work for `episode_i`); the first raised exception
propagates out of the loop. -/
def runEpisodes (analyzeEpisode : ℕ → CryEpisode → Except ε ρ) :
    ℕ → List CryEpisode → Except ε (List ρ)
  | _, [] => .ok []
  | i, ep :: rest =>
      match analyzeEpisode i ep with
      | .error e => .error e
      | .ok r =>
          match runEpisodes analyzeEpisode (i + 1) rest with
          | .error e => .error e
          | .ok rs => .ok (r :: rs)

/-- `analyze_audio_file` (`analysis_tasks.py`): set the file's status to
`"processing"`, run detection (`detect`, abstracting
`CryDetector.detect_from_file`), then the per-episode loop; on success add
one `AnalysisResult` row and commit status `"completed"`; any exception
raised during detection or during the loop reaches the `except` block,
which sets status `"failed"`, commits, and re-raises (the `Except.error`
component of the returned pair). -/
def analyzeAudioFile (detect : Except ε (List CryEpisode))
    (analyzeEpisode : ℕ → CryEpisode → Except ε ρ)
    (st : AnalysisDbState ρ) : Except ε (List ρ) × AnalysisDbState ρ :=
  let st1 := { st with status := "processing" }
  match detect with
  | .error e => (.error e, { st1 with status := "failed" })
  | .ok eps =>
      match runEpisodes analyzeEpisode 0 eps with
      | .error e => (.error e, { st1 with status := "failed" })
      | .ok rs =>
          (.ok rs,
            { status := "completed", savedResults := st1.savedResults ++ [rs] })

/-! ## Theorems -/

instance : IsTotal Seg (fun a b => a.s ≤ b.s) := ⟨fun a b => le_total a.s b.s⟩

instance : IsTrans Seg (fun a b => a.s ≤ b.s) := ⟨fun _ _ _ => le_trans⟩

theorem sortByStart_pairwise (segs : List Seg) :
    (sortByStart segs).Pairwise (fun a b => a.s ≤ b.s) :=
  List.sorted_insertionSort _ segs

theorem mem_sortByStart {segs : List Seg} {x : Seg} :
    x ∈ sortByStart segs ↔ x ∈ segs :=
  List.mem_insertionSort _

/-- Invariants of the merge loop of `_merge_segments_to_episodes`: the
output is non-empty and its first episode starts at the running start `cs`;
consecutive episodes are separated by a strictly positive gap; every episode
has `duration = end - start` and ordered endpoints. -/
theorem mergeLoop_invariants (maxGap : ℚ) (hmg : 0 ≤ maxGap) :
    ∀ (rest : List Seg) (cs ce : ℚ) (confs : List ℚ),
      cs ≤ ce →
      (∀ sg ∈ rest, sg.s ≤ sg.e) →
      (∀ sg ∈ rest, cs ≤ sg.s) →
      rest.Pairwise (fun a b => a.s ≤ b.s) →
      (∃ ep tl, mergeLoop maxGap cs ce confs rest = ep :: tl ∧ ep.start_time = cs) ∧
      (mergeLoop maxGap cs ce confs rest).Chain'
        (fun a b => a.end_time < b.start_time) ∧
      ∀ ep ∈ mergeLoop maxGap cs ce confs rest,
        ep.duration = ep.end_time - ep.start_time ∧ ep.start_time ≤ ep.end_time
  | [], cs, ce, confs, hce, _, _, _ => by
      refine ⟨⟨_, [], rfl, rfl⟩, List.chain'_singleton _, ?_⟩
      intro ep hep
      rw [mergeLoop, List.mem_singleton] at hep
      subst hep
      exact ⟨rfl, hce⟩
  | seg :: rest, cs, ce, confs, hce, hwf, hcs, hsorted => by
      have hwf_head : seg.s ≤ seg.e := hwf seg (by simp)
      have hcs_head : cs ≤ seg.s := hcs seg (by simp)
      have hsorted' := (List.pairwise_cons.mp hsorted).2
      have hseg_le := (List.pairwise_cons.mp hsorted).1
      by_cases hgap : seg.s - ce ≤ maxGap
      · have IH := mergeLoop_invariants maxGap hmg rest cs seg.e (confs ++ [seg.c])
          (le_trans hcs_head hwf_head)
          (fun sg h => hwf sg (List.mem_cons_of_mem _ h))
          (fun sg h => hcs sg (List.mem_cons_of_mem _ h)) hsorted'
        rw [mergeLoop, if_pos hgap]
        exact IH
      · have IH := mergeLoop_invariants maxGap hmg rest seg.s seg.e [seg.c]
          hwf_head (fun sg h => hwf sg (List.mem_cons_of_mem _ h)) hseg_le hsorted'
        obtain ⟨⟨ep1, tl1, hout, hstart⟩, hchain, hmemb⟩ := IH
        rw [mergeLoop, if_neg hgap]
        have hlt : ce < seg.s := by
          rw [not_le] at hgap
          linarith
        refine ⟨⟨_, _, rfl, rfl⟩, ?_, ?_⟩
        · rw [hout]
          exact List.chain'_cons.mpr ⟨by rw [hstart]; exact hlt, hout ▸ hchain⟩
        · intro ep hep
          rcases List.mem_cons.mp hep with rfl | hep'
          · exact ⟨rfl, hce⟩
          · exact hmemb ep hep'

/-- Episodes whose endpoints are ordered and that are chained by
`end < next start` are pairwise separated. -/
theorem pairwise_of_chain_sep : ∀ (l : List CryEpisode),
    (∀ ep ∈ l, ep.start_time ≤ ep.end_time) →
    l.Chain' (fun a b => a.end_time < b.start_time) →
    l.Pairwise (fun a b => a.end_time < b.start_time)
  | [], _, _ => List.Pairwise.nil
  | [_], _, _ => by simp
  | a :: b :: l, hwf, hch => by
      obtain ⟨hab, hch'⟩ := List.chain'_cons.mp hch
      have IH := pairwise_of_chain_sep (b :: l)
        (fun ep h => hwf ep (List.mem_cons_of_mem _ h)) hch'
      refine List.Pairwise.cons ?_ IH
      intro c hc
      rcases List.mem_cons.mp hc with rfl | hc'
      · exact hab
      · have hbc := (List.pairwise_cons.mp IH).1 c hc'
        have hbwf := hwf b (by simp)
        linarith

/-- C1: for a non-negative merge gap and well-formed input segments
(`start ≤ end`, as `_detect_cry_segments` produces), the episode list
returned by `_merge_segments_to_episodes` is pairwise separated (every
episode ends strictly before any later episode starts), strictly sorted by
`start_time`, and every episode satisfies `duration = end_time - start_time`
with ordered endpoints. -/
theorem mergeEpisodes_ordered_disjoint_duration (maxGap : ℚ) (segs : List Seg)
    (hmg : 0 ≤ maxGap) (hwf : ∀ sg ∈ segs, sg.s ≤ sg.e) :
    List.Pairwise (fun a b => a.end_time < b.start_time)
      (mergeSegmentsToEpisodes maxGap segs) ∧
    List.Pairwise (fun a b => a.start_time < b.start_time)
      (mergeSegmentsToEpisodes maxGap segs) ∧
    ∀ ep ∈ mergeSegmentsToEpisodes maxGap segs,
      ep.duration = ep.end_time - ep.start_time ∧ ep.start_time ≤ ep.end_time := by
  have hsorted := sortByStart_pairwise segs
  unfold mergeSegmentsToEpisodes
  cases hs : sortByStart segs with
  | nil => simp
  | cons s0 rest =>
      rw [hs] at hsorted
      have hwf' : ∀ sg ∈ s0 :: rest, sg.s ≤ sg.e := by
        intro sg hsg
        exact hwf sg (mem_sortByStart.mp (hs ▸ hsg))
      obtain ⟨_, hchain, hmemb⟩ := mergeLoop_invariants maxGap hmg rest s0.s s0.e [s0.c]
        (hwf' s0 (by simp))
        (fun sg h => hwf' sg (List.mem_cons_of_mem _ h))
        (List.pairwise_cons.mp hsorted).1
        (List.pairwise_cons.mp hsorted).2
      have hpw := pairwise_of_chain_sep _ (fun ep h => (hmemb ep h).2) hchain
      refine ⟨hpw, ?_, hmemb⟩
      refine List.Pairwise.imp_of_mem ?_ hpw
      intro a b ha _ hab
      have := (hmemb a ha).2
      linarith

/-- Witness for C1: two out-of-order segments with a gap larger than the
merge gap produce two separated, sorted, duration-exact episodes. -/
theorem mergeEpisodes_ordered_disjoint_duration_witness :
    List.Pairwise (fun a b => a.end_time < b.start_time)
      (mergeSegmentsToEpisodes 1 [⟨3, 4, 1⟩, ⟨0, 1, 1⟩]) ∧
    List.Pairwise (fun a b => a.start_time < b.start_time)
      (mergeSegmentsToEpisodes 1 [⟨3, 4, 1⟩, ⟨0, 1, 1⟩]) ∧
    ∀ ep ∈ mergeSegmentsToEpisodes 1 [⟨3, 4, 1⟩, ⟨0, 1, 1⟩],
      ep.duration = ep.end_time - ep.start_time ∧ ep.start_time ≤ ep.end_time :=
  mergeEpisodes_ordered_disjoint_duration 1 [⟨3, 4, 1⟩, ⟨0, 1, 1⟩] (by norm_num)
    (by intro sg hsg; rcases List.mem_cons.mp hsg with rfl | hsg
        · norm_num
        · rcases List.mem_singleton.mp hsg with rfl; norm_num)

/-- C2 (amended): for two segments listed in start order, a gap
`s2.s - s1.e ≤ max_gap` yields exactly one episode spanning from the first
segment's start to the *second* segment's end (with the mean confidence),
which covers both segments whenever the second segment does not end before
the first; a gap `> max_gap` yields exactly two episodes, one per
segment. -/
theorem mergeTwoSegments (s1 s2 : Seg) (mg : ℚ) (hs : s1.s ≤ s2.s) :
    (s2.s - s1.e ≤ mg →
      mergeSegmentsToEpisodes mg [s1, s2] =
        [{ start_time := s1.s, end_time := s2.e, duration := s2.e - s1.s,
           confidence := (s1.c + s2.c) / 2 }]) ∧
    (mg < s2.s - s1.e →
      mergeSegmentsToEpisodes mg [s1, s2] =
        [{ start_time := s1.s, end_time := s1.e, duration := s1.e - s1.s,
           confidence := s1.c },
         { start_time := s2.s, end_time := s2.e, duration := s2.e - s2.s,
           confidence := s2.c }]) ∧
    (s2.s - s1.e ≤ mg → s1.e ≤ s2.e →
      ∀ ep ∈ mergeSegmentsToEpisodes mg [s1, s2],
        ep.start_time ≤ s1.s ∧ ep.start_time ≤ s2.s ∧
          s1.e ≤ ep.end_time ∧ s2.e ≤ ep.end_time) := by
  have hsort : sortByStart [s1, s2] = [s1, s2] := by
    simp [sortByStart, List.insertionSort, List.orderedInsert, hs]
  refine ⟨?_, ?_, ?_⟩
  · intro hgap
    simp only [mergeSegmentsToEpisodes, hsort, mergeLoop, if_pos hgap]
    simp [npMean]
  · intro hgap
    simp only [mergeSegmentsToEpisodes, hsort, mergeLoop,
      if_neg (not_le.mpr hgap)]
    simp [npMean]
  · intro hgap he ep hep
    simp only [mergeSegmentsToEpisodes, hsort, mergeLoop, if_pos hgap] at hep
    rcases List.mem_singleton.mp hep with rfl
    exact ⟨le_refl _, hs, he, le_refl _⟩

/-- Counterexample to C2 as stated: for the nested pair of segments
`(0, 10)` and `(1, 2)` the gap `1 - 10 = -9` is at most `max_gap = 1` and
one episode is returned, but it ends at `2 < 10` and therefore does not
cover the first segment. -/
theorem mergeTwoSegments_nested_counterexample :
    (1 : ℚ) - 10 ≤ 1 ∧
    mergeSegmentsToEpisodes 1 [⟨0, 10, 1⟩, ⟨1, 2, 1⟩] =
      [{ start_time := 0, end_time := 2, duration := 2, confidence := 1 }] ∧
    ¬ ((10 : ℚ) ≤ 2) := by
  refine ⟨by norm_num, ?_, by norm_num⟩
  norm_num [mergeSegmentsToEpisodes, sortByStart, List.insertionSort,
    List.orderedInsert, mergeLoop, npMean]

/-- Witness for C2: a gap of 2 > max_gap 1 gives two episodes; a gap of
1/2 ≤ 1 gives the single spanning episode. -/
theorem mergeTwoSegments_witness :
    mergeSegmentsToEpisodes 1 [⟨0, 1, 1⟩, ⟨3, 4, 1⟩] =
      [{ start_time := 0, end_time := 1, duration := 1, confidence := 1 },
       { start_time := 3, end_time := 4, duration := 1, confidence := 1 }] ∧
    mergeSegmentsToEpisodes 1 [⟨0, 1, 1⟩, ⟨3/2, 4, 1⟩] =
      [{ start_time := 0, end_time := 4, duration := 4, confidence := 1 }] := by
  constructor
  · have h := (mergeTwoSegments ⟨0, 1, 1⟩ ⟨3, 4, 1⟩ 1 (by norm_num)).2.1 (by norm_num)
    rw [h]
    norm_num
  · have h := (mergeTwoSegments ⟨0, 1, 1⟩ ⟨3/2, 4, 1⟩ 1 (by norm_num)).1 (by norm_num)
    rw [h]
    norm_num

/-- The mean of a non-empty list of values in `[0, 1]` lies in `[0, 1]`. -/
theorem npMean_unit_interval (l : List ℚ) (hne : l ≠ [])
    (h : ∀ x ∈ l, 0 ≤ x ∧ x ≤ 1) : 0 ≤ npMean l ∧ npMean l ≤ 1 := by
  have hlen : (0 : ℚ) < l.length := by
    have := List.length_pos.mpr hne
    exact_mod_cast this
  have hsum0 : 0 ≤ l.sum := List.sum_nonneg (fun x hx => (h x hx).1)
  have hsum1 : l.sum ≤ (l.length : ℚ) := by
    have := List.sum_le_card_nsmul l 1 (fun x hx => (h x hx).2)
    simpa using this
  constructor
  · exact div_nonneg hsum0 (le_of_lt hlen)
  · rw [npMean, div_le_one hlen]
    exact hsum1

/-- Confidence bounds of a segment emitted by `closeSegment`: with a
positive energy threshold and a non-negative run energy sum, the
normalised-and-capped confidence lies in `[0, 1]`. -/
theorem closeSegment_conf (cfg : CryDetectorCfg) (offset : ℚ)
    (segStart i : ℕ) (energySum : ℚ) (frames : ℕ)
    (hθ : 0 < cfg.energy_threshold) (hsum : 0 ≤ energySum) :
    ∀ sg ∈ closeSegment cfg offset segStart i energySum frames,
      0 ≤ sg.c ∧ sg.c ≤ 1 := by
  intro sg hsg
  simp only [closeSegment] at hsg
  split at hsg
  · rcases List.mem_singleton.mp hsg with rfl
    refine ⟨le_min ?_ zero_le_one, min_le_right _ _⟩
    positivity
  · simp at hsg

/-- Every frame inside a run of the detect loop has energy above the
threshold, so confidence of every emitted segment lies in `[0, 1]`. -/
theorem detectLoop_conf (cfg : CryDetectorCfg) (hθ : 0 < cfg.energy_threshold)
    (offset : ℚ) :
    ∀ (frames : List (ℚ × ℚ)) (i : ℕ) (st : Option (ℕ × ℚ × ℕ)),
      (∀ x, st = some x → 0 ≤ x.2.1) →
      ∀ sg ∈ detectLoop cfg offset i st frames, 0 ≤ sg.c ∧ sg.c ≤ 1
  | [], _, none, _ => by intro sg hsg; simp [detectLoop] at hsg
  | [], i, some st, hst => by
      intro sg hsg
      rw [detectLoop] at hsg
      exact closeSegment_conf cfg offset st.1 i st.2.1 st.2.2 hθ (hst st rfl) sg hsg
  | f :: rest, i, none, _ => by
      intro sg hsg
      rw [detectLoop] at hsg
      split at hsg
      · have hcry : isCryFrame cfg f.1 f.2 = true := by assumption
        have hf : 0 ≤ f.1 := by
          simp only [isCryFrame, Bool.and_eq_true, decide_eq_true_eq] at hcry
          linarith [hcry.1]
        exact detectLoop_conf cfg hθ offset rest (i + 1) (some (i, f.1, 1))
          (by intro x hx; cases hx; exact hf) sg hsg
      · exact detectLoop_conf cfg hθ offset rest (i + 1) none
          (by intro x hx; cases hx) sg hsg
  | f :: rest, i, some st, hst => by
      intro sg hsg
      rw [detectLoop] at hsg
      split at hsg
      · have hcry : isCryFrame cfg f.1 f.2 = true := by assumption
        have hf : 0 ≤ f.1 := by
          simp only [isCryFrame, Bool.and_eq_true, decide_eq_true_eq] at hcry
          linarith [hcry.1]
        exact detectLoop_conf cfg hθ offset rest (i + 1)
          (some (st.1, st.2.1 + f.1, st.2.2 + 1))
          (by intro x hx; cases hx; exact add_nonneg (hst st rfl) hf) sg hsg
      · rcases List.mem_append.mp hsg with hsg' | hsg'
        · exact closeSegment_conf cfg offset st.1 i st.2.1 st.2.2 hθ (hst st rfl) sg hsg'
        · exact detectLoop_conf cfg hθ offset rest (i + 1) none
            (by intro x hx; cases hx) sg hsg'

/-- The merge loop keeps episode confidences in `[0, 1]` when the
accumulated confidences and all remaining segment confidences are. -/
theorem mergeLoop_conf (maxGap : ℚ) :
    ∀ (rest : List Seg) (cs ce : ℚ) (confs : List ℚ),
      confs ≠ [] → (∀ c ∈ confs, 0 ≤ c ∧ c ≤ 1) →
      (∀ sg ∈ rest, 0 ≤ sg.c ∧ sg.c ≤ 1) →
      ∀ ep ∈ mergeLoop maxGap cs ce confs rest,
        0 ≤ ep.confidence ∧ ep.confidence ≤ 1
  | [], cs, ce, confs, hne, hconfs, _ => by
      intro ep hep
      rw [mergeLoop, List.mem_singleton] at hep
      subst hep
      exact npMean_unit_interval confs hne hconfs
  | seg :: rest, cs, ce, confs, hne, hconfs, hrest => by
      intro ep hep
      rw [mergeLoop] at hep
      have hsegc := hrest seg (by simp)
      split at hep
      · exact mergeLoop_conf maxGap rest cs seg.e (confs ++ [seg.c])
          (by simp) (by
            intro c hc
            rcases List.mem_append.mp hc with hc' | hc'
            · exact hconfs c hc'
            · rcases List.mem_singleton.mp hc' with rfl; exact hsegc)
          (fun sg h => hrest sg (List.mem_cons_of_mem _ h)) ep hep
      · rcases List.mem_cons.mp hep with rfl | hep'
        · exact npMean_unit_interval confs hne hconfs
        · exact mergeLoop_conf maxGap rest seg.s seg.e [seg.c]
            (by simp) (by intro c hc; rcases List.mem_singleton.mp hc with rfl; exact hsegc)
            (fun sg h => hrest sg (List.mem_cons_of_mem _ h)) ep hep'

/-- C8: with a positive energy threshold (default 0.02), every episode
produced by the chunked detection pipeline (`_detect_cry_segments` on each
chunk, then `_merge_segments_to_episodes`) has confidence in `[0, 1]`: a
run's confidence is its mean energy normalised by the threshold and capped
at 1, and a merged episode's confidence is the mean of its constituents'. -/
theorem detectFromChunks_confidence (cfg : CryDetectorCfg)
    (chunks : List (List (ℚ × ℚ) × ℚ)) (hθ : 0 < cfg.energy_threshold) :
    ∀ ep ∈ detectFromChunks cfg chunks,
      0 ≤ ep.confidence ∧ ep.confidence ≤ 1 := by
  intro ep hep
  have hsegs : ∀ sg ∈ chunks.flatMap (fun p => detectCrySegments cfg p.1 p.2),
      0 ≤ sg.c ∧ sg.c ≤ 1 := by
    intro sg hsg
    rcases List.mem_flatMap.mp hsg with ⟨p, _, hmem⟩
    exact detectLoop_conf cfg hθ p.2 p.1 0 none (by intro x hx; cases hx) sg hmem
  unfold detectFromChunks mergeSegmentsToEpisodes at hep
  revert hep
  cases hs : sortByStart (chunks.flatMap (fun p => detectCrySegments cfg p.1 p.2)) with
  | nil => intro hep; simp at hep
  | cons s0 rest =>
      intro hep
      have hmem : ∀ x ∈ s0 :: rest, 0 ≤ x.c ∧ x.c ≤ 1 := by
        intro x hx
        exact hsegs x (mem_sortByStart.mp (hs ▸ hx))
      exact mergeLoop_conf cfg.max_gap rest s0.s s0.e [s0.c] (by simp)
        (by intro c hc; rcases List.mem_singleton.mp hc with rfl
            exact hmem s0 (by simp))
        (fun sg h => hmem sg (List.mem_cons_of_mem _ h)) ep hep

/-- Inside a run, a block of identical cry frames accumulates its energy and
frame count and then closes. -/
theorem detectLoop_const_cry (cfg : CryDetectorCfg) (offset : ℚ) (e c : ℚ)
    (hcry : isCryFrame cfg e c = true) :
    ∀ (n i s : ℕ) (acc : ℚ) (k : ℕ),
      detectLoop cfg offset i (some (s, acc, k)) (List.replicate n (e, c)) =
        closeSegment cfg offset s (i + n) (acc + n * e) (k + n)
  | 0, i, s, acc, k => by simp [detectLoop]
  | n + 1, i, s, acc, k => by
      rw [List.replicate_succ, detectLoop, if_pos hcry,
        detectLoop_const_cry cfg offset e c hcry n (i + 1) s (acc + e) (k + 1),
        show i + 1 + n = i + (n + 1) from by omega,
        show acc + e + (n : ℚ) * e = acc + ((n + 1 : ℕ) : ℚ) * e from by
          push_cast; ring,
        show k + 1 + n = k + (n + 1) from by omega]

/-- Witness for C8: one chunk of 25 cry frames (energy 1, centroid 300 Hz)
at the default configuration yields a single episode whose confidence — the
capped normalised mean energy — lies in `[0, 1]`. -/
theorem detectFromChunks_confidence_witness :
    detectFromChunks defaultDetectorCfg [(List.replicate 25 ((1:ℚ), (300:ℚ)), 0)] =
      [{ start_time := 0, end_time := 12800/22050, duration := 12800/22050,
         confidence := 1 }] ∧
    0 ≤ (CryEpisode.mk 0 (12800/22050) (12800/22050) 1).confidence ∧
    (CryEpisode.mk 0 (12800/22050) (12800/22050) 1).confidence ≤ 1 := by
  have hcry : isCryFrame defaultDetectorCfg 1 300 = true := by
    norm_num [isCryFrame, defaultDetectorCfg]
  have hloop : detectCrySegments defaultDetectorCfg
      (List.replicate 25 ((1:ℚ), (300:ℚ))) 0 = [⟨0, 12800/22050, 1⟩] := by
    rw [detectCrySegments, show (25 : ℕ) = 24 + 1 from rfl, List.replicate_succ,
      detectLoop, if_pos hcry,
      detectLoop_const_cry defaultDetectorCfg 0 1 300 hcry 24 1 0 1 1]
    norm_num [closeSegment, frameDuration, defaultDetectorCfg, min_def]
  have hEq : detectFromChunks defaultDetectorCfg
      [(List.replicate 25 ((1:ℚ), (300:ℚ)), 0)] =
      [{ start_time := 0, end_time := 12800/22050, duration := 12800/22050,
         confidence := 1 }] := by
    rw [detectFromChunks]
    norm_num [hloop, mergeSegmentsToEpisodes, sortByStart, List.insertionSort,
      List.orderedInsert, mergeLoop, npMean]
  refine ⟨hEq, detectFromChunks_confidence defaultDetectorCfg
    [(List.replicate 25 ((1:ℚ), (300:ℚ)), 0)] (by norm_num [defaultDetectorCfg])
    _ ?_⟩
  rw [hEq]
  exact List.mem_singleton_self _

/-- C7: `calculate_cry_unit_metrics` returns `cryCE` = mean duration of the
voiced units (0 when there is no voiced unit, in particular for the empty
list) and `unvoicedCE` = summed duration of the unvoiced units (0 when there
is none, the empty sum). -/
theorem calculateCryUnitMetrics_spec (units : List CryUnit) :
    (calculateCryUnitMetrics units).1 =
      (if units.filter (fun u => u.is_voiced) = [] then 0
       else npMean ((units.filter (fun u => u.is_voiced)).map (fun u => u.duration))) ∧
    (calculateCryUnitMetrics units).2 =
      ((units.filter (fun u => !u.is_voiced)).map (fun u => u.duration)).sum := by
  unfold calculateCryUnitMetrics
  cases units with
  | nil => simp
  | cons u us =>
      constructor
      · simp [List.isEmpty_iff]
      · simp only [List.isEmpty_cons, Bool.false_eq_true, if_false, List.isEmpty_iff]
        by_cases h : (u :: us).filter (fun u => !u.is_voiced) = [] <;> simp [h]

/-- C10: when the sample slice extracted for the episode is empty,
`detect_units_in_episode` returns the empty list. -/
theorem detectUnits_empty_slice (cfg : CryUnitCfg) (orc : AudioOracle)
    (y energy : List ℚ) (epStart epEnd : ℚ)
    (h : pySlice y (pyInt (epStart * cfg.sr)) (pyInt (epEnd * cfg.sr)) = []) :
    detectUnitsInEpisode cfg orc y energy epStart epEnd = [] := by
  unfold detectUnitsInEpisode
  simp [h]

/-- Witness for C10: a range past the episode end (start 2 s, end 1 s over a
3-sample buffer) yields the empty unit list. -/
theorem detectUnits_empty_slice_witness :
    detectUnitsInEpisode defaultUnitCfg ⟨fun _ => 0, fun _ => 0⟩ [1, 0, 1] [1] 2 1 = [] :=
  detectUnits_empty_slice defaultUnitCfg ⟨fun _ => 0, fun _ => 0⟩ [1, 0, 1] [1] 2 1 (by
    norm_num [pySlice, pySliceIndex, pyInt, defaultUnitCfg])

/-- C6: for a buffer at least 20 ms long, `_classify_voicing` returns voiced
iff the mean zero-crossing rate is below 0.1 and the RMS energy is at least
0.01 (stated as `meanSq ≥ 0.01²`). -/
theorem classifyVoicing_iff (cfg : CryUnitCfg) (audio : List ℚ) (zcrMean : ℚ)
    (h : (cfg.sr : ℚ) * (2/100) ≤ (audio.length : ℚ)) :
    (classifyVoicing cfg audio zcrMean = true ↔
      zcrMean < 1/10 ∧ (1/10000 : ℚ) ≤ meanSq audio) := by
  unfold classifyVoicing
  rw [if_neg (not_lt.mpr h)]
  simp [not_lt]

/-- Witness for C6: 441 samples of a unit-amplitude buffer at the default
sample rate, zero mean ZCR: classified voiced. -/
theorem classifyVoicing_iff_witness :
    classifyVoicing defaultUnitCfg (List.replicate 441 1) 0 = true ↔
      (0 : ℚ) < 1/10 ∧ (1/10000 : ℚ) ≤ meanSq (List.replicate 441 1) :=
  classifyVoicing_iff defaultUnitCfg (List.replicate 441 1) 0 (by
    rw [List.length_replicate]
    norm_num [defaultUnitCfg])

/-- C9: any error raised during detection or during the per-episode loop of
`analyze_audio_file` aborts the job: the file's status is set to `"failed"`,
no `AnalysisResult` row is persisted (the saved rows are exactly those from
before the job), and the original error is re-raised to the caller. -/
theorem analyzeAudioFile_failure {ε ρ : Type} (detect : Except ε (List CryEpisode))
    (analyzeEpisode : ℕ → CryEpisode → Except ε ρ) (st : AnalysisDbState ρ) (e : ε)
    (h : detect = .error e ∨
      ∃ eps, detect = .ok eps ∧ runEpisodes analyzeEpisode 0 eps = .error e) :
    analyzeAudioFile detect analyzeEpisode st =
      (.error e, { status := "failed", savedResults := st.savedResults }) := by
  rcases h with h | ⟨eps, hd, hr⟩
  · subst h; rfl
  · subst hd
    simp [analyzeAudioFile, hr]

/-- Witness for C9 (scenario E): three episodes, the second one's analysis
raises; the job ends failed with no persisted result and the error
re-raised. -/
theorem analyzeAudioFile_failure_witness :
    analyzeAudioFile (ε := String) (ρ := ℕ)
      (.ok [⟨0, 1, 1, 1⟩, ⟨2, 3, 1, 1⟩, ⟨4, 5, 1, 1⟩])
      (fun i _ => if i = 1 then .error "boom" else .ok 0)
      { status := "uploaded", savedResults := [] } =
      (.error "boom", { status := "failed", savedResults := [] }) :=
  analyzeAudioFile_failure _ _ _ _
    (Or.inr ⟨[⟨0, 1, 1, 1⟩, ⟨2, 3, 1, 1⟩, ⟨4, 5, 1, 1⟩], rfl, rfl⟩)

/-- Two rationals summing to an even integer round (half-to-even) to
integers summing to that integer. -/
theorem roundHalfEven_add (a b : ℚ) (n : ℤ) (hn : 2 ∣ n)
    (hab : a + b = (n : ℚ)) : roundHalfEven a + roundHalfEven b = n := by
  have hfr0 : (0 : ℚ) ≤ a - ⌊a⌋ := by linarith [Int.floor_le a]
  have hfr1 : a - ⌊a⌋ < 1 := by linarith [Int.lt_floor_add_one a]
  by_cases h0 : a - ⌊a⌋ = 0
  · have hfb : ⌊b⌋ = n - ⌊a⌋ := by
      have hb : b = ((n - ⌊a⌋ : ℤ) : ℚ) := by push_cast; linarith
      rw [hb, Int.floor_intCast]
    have hb0 : b - ⌊b⌋ = 0 := by
      rw [hfb]; push_cast; linarith
    have ra : roundHalfEven a = ⌊a⌋ := by
      unfold roundHalfEven; rw [if_pos (by rw [h0]; norm_num)]
    have rb : roundHalfEven b = ⌊b⌋ := by
      unfold roundHalfEven; rw [if_pos (by rw [hb0]; norm_num)]
    rw [ra, rb, hfb]; omega
  · have h0' : 0 < a - ⌊a⌋ := lt_of_le_of_ne hfr0 (Ne.symm h0)
    have hfb : ⌊b⌋ = n - ⌊a⌋ - 1 := by
      rw [Int.floor_eq_iff]
      constructor
      · push_cast; linarith
      · push_cast; linarith
    have hrb : b - ⌊b⌋ = 1 - (a - ⌊a⌋) := by
      rw [hfb]; push_cast; linarith
    rcases lt_trichotomy (a - ⌊a⌋) (1/2) with hr | hr | hr
    · have ra : roundHalfEven a = ⌊a⌋ := by
        unfold roundHalfEven; rw [if_pos hr]
      have rb : roundHalfEven b = ⌊b⌋ + 1 := by
        unfold roundHalfEven
        rw [if_neg (by rw [hrb]; linarith), if_pos (by rw [hrb]; linarith)]
      rw [ra, rb, hfb]; omega
    · have hb' : b - ⌊b⌋ = 1/2 := by rw [hrb, hr]; norm_num
      by_cases hpar : 2 ∣ ⌊a⌋
      · have ra : roundHalfEven a = ⌊a⌋ := by
          unfold roundHalfEven
          rw [if_neg (by rw [hr]; norm_num), if_neg (by rw [hr]; norm_num),
            if_pos hpar]
        have rb : roundHalfEven b = ⌊b⌋ + 1 := by
          unfold roundHalfEven
          rw [if_neg (by rw [hb']; norm_num), if_neg (by rw [hb']; norm_num),
            if_neg (by rw [hfb]; omega)]
        rw [ra, rb, hfb]; omega
      · have ra : roundHalfEven a = ⌊a⌋ + 1 := by
          unfold roundHalfEven
          rw [if_neg (by rw [hr]; norm_num), if_neg (by rw [hr]; norm_num),
            if_neg hpar]
        have rb : roundHalfEven b = ⌊b⌋ := by
          unfold roundHalfEven
          rw [if_neg (by rw [hb']; norm_num), if_neg (by rw [hb']; norm_num),
            if_pos (by rw [hfb]; omega)]
        rw [ra, rb, hfb]; omega
    · have ra : roundHalfEven a = ⌊a⌋ + 1 := by
        unfold roundHalfEven
        rw [if_neg (by linarith), if_pos hr]
      have rb : roundHalfEven b = ⌊b⌋ := by
        unfold roundHalfEven
        rw [if_pos (by rw [hrb]; linarith)]
      rw [ra, rb, hfb]; omega

/-- C4: for a non-empty frame list, `voiced_pct` (the rounded percentage of
frames with defined f0) and `unvoiced_pct` (the rounded percentage of the
remaining frames) returned by `compute_special_parameters` sum to exactly
100. -/
theorem voiced_unvoiced_sum_100 (fl : List AcousticFeatures) (t : ℚ)
    (hne : fl ≠ []) :
    (computeSpecialParameters fl t).voiced_pct +
      (computeSpecialParameters fl t).unvoiced_pct = 100 := by
  have hT : fl.length ≠ 0 := fun h => hne (List.eq_nil_of_length_eq_zero h)
  have hVT : fl.countP (fun f => f.f0.isSome) ≤ fl.length :=
    List.countP_le_length _
  have hTq : (fl.length : ℚ) ≠ 0 := by exact_mod_cast hT
  simp only [computeSpecialParameters, if_neg hT]
  unfold pyRound2
  rw [div_add_div_same, ← Int.cast_add,
    roundHalfEven_add _ _ 10000 (by norm_num) (by
      push_cast [Nat.cast_sub hVT]
      field_simp
      ring)]
  norm_num

/-- Witness for C4: two frames, one voiced: 50.0 + 50.0 = 100. -/
theorem voiced_unvoiced_sum_100_witness :
    (computeSpecialParameters
        [{ time := 0, f0 := some 300, f1 := none, f2 := none, f3 := none,
           hnr := none, shimmer := none, jitter := none, intensity := none },
         { time := 1/100, f0 := none, f1 := none, f2 := none, f3 := none,
           hnr := none, shimmer := none, jitter := none, intensity := none }]
        500).voiced_pct +
      (computeSpecialParameters
        [{ time := 0, f0 := some 300, f1 := none, f2 := none, f3 := none,
           hnr := none, shimmer := none, jitter := none, intensity := none },
         { time := 1/100, f0 := none, f1 := none, f2 := none, f3 := none,
           hnr := none, shimmer := none, jitter := none, intensity := none }]
        500).unvoiced_pct = 100 :=
  voiced_unvoiced_sum_100 _ 500 (by simp)

/-- Filtering a list to the elements where `g` is defined does not change
its `filterMap g`. -/
theorem filterMap_filter_isSome {α β : Type} (g : α → Option β) :
    ∀ l : List α, (l.filter (fun x => (g x).isSome)).filterMap g = l.filterMap g
  | [] => rfl
  | x :: l => by
      cases hg : g x with
      | none =>
          simp [List.filter_cons, List.filterMap_cons, hg,
            filterMap_filter_isSome g l]
      | some v =>
          simp [List.filter_cons, List.filterMap_cons, hg,
            filterMap_filter_isSome g l]

theorem pyRound2_zero : pyRound2 0 = 0 := by
  simp [pyRound2, roundHalfEven]

/-- C5: `compute_statistics` uses, for each parameter, exactly the frames
where that parameter is defined (dropping frames with an absent value leaves
the statistics unchanged — absent values are never treated as zeros); a
parameter with zero defined samples gets all five fields `None`; and when
every frame's f0 is absent, `voiced_pct = 0`, `high_pitch_pct = 0` and all
f0 statistics are `None` (scenario D). -/
theorem computeStatistics_absent_excluded (fl : List AcousticFeatures)
    (p : Param) (t : ℚ) :
    (computeStatistics fl p =
      computeStatistics (fl.filter (fun f => (getParam p f).isSome)) p) ∧
    (fl.filterMap (getParam p) = [] →
      computeStatistics fl p =
        { mean := none, std := none, min := none, max := none, median := none }) ∧
    ((∀ f ∈ fl, f.f0 = none) →
      (computeSpecialParameters fl t).voiced_pct = 0 ∧
      (computeSpecialParameters fl t).high_pitch_pct = 0 ∧
      computeStatistics fl .f0 =
        { mean := none, std := none, min := none, max := none, median := none }) := by
  refine ⟨?_, ?_, ?_⟩
  · unfold computeStatistics computeStatisticsFor
    rw [filterMap_filter_isSome]
  · intro hnil
    unfold computeStatistics computeStatisticsFor
    rw [hnil]
    rfl
  · intro hall
    have hv : fl.countP (fun f => f.f0.isSome) = 0 := by
      rw [List.countP_eq_zero]
      intro f hf
      simp [hall f hf]
    have hh : fl.countP (fun f =>
        match f.f0 with
        | some v => decide (v > t)
        | none => false) = 0 := by
      rw [List.countP_eq_zero]
      intro f hf
      simp [hall f hf]
    have hf0 : fl.filterMap (getParam .f0) = [] := by
      rw [List.filterMap_eq_nil_iff]
      intro f hf
      simpa [getParam] using hall f hf
    refine ⟨?_, ?_, ?_⟩
    · by_cases hT : fl.length = 0
      · simp [computeSpecialParameters, hT]
      · simp only [computeSpecialParameters, if_neg hT, hv]
        simpa using pyRound2_zero
    · by_cases hT : fl.length = 0
      · simp [computeSpecialParameters, hT]
      · simp only [computeSpecialParameters, if_neg hT, hh]
        simpa using pyRound2_zero
    · unfold computeStatistics computeStatisticsFor
      rw [hf0]
      rfl

/-- Witness for C5 (scenario D): one frame with absent f0 (but a defined
intensity): zero voiced and high-pitch percentages, all-null f0
statistics. -/
theorem computeStatistics_absent_excluded_witness :
    (computeSpecialParameters
        [{ time := 0, f0 := none, f1 := none, f2 := none, f3 := none,
           hnr := none, shimmer := none, jitter := none, intensity := some 60 }]
        500).voiced_pct = 0 ∧
    (computeSpecialParameters
        [{ time := 0, f0 := none, f1 := none, f2 := none, f3 := none,
           hnr := none, shimmer := none, jitter := none, intensity := some 60 }]
        500).high_pitch_pct = 0 ∧
    computeStatistics
        [{ time := 0, f0 := none, f1 := none, f2 := none, f3 := none,
           hnr := none, shimmer := none, jitter := none, intensity := some 60 }]
        Param.f0 =
      { mean := none, std := none, min := none, max := none, median := none } :=
  (computeStatistics_absent_excluded _ Param.f0 500).2.2
    (by intro f hf; rcases List.mem_singleton.mp hf with rfl; rfl)

/-- Bounds of the silence segments found by `_find_silence_segments`: with a
non-negative frame duration, every segment `(a, b)` satisfies
`0 ≤ a ≤ b ≤ (i + #frames)·fd`. -/
theorem silenceLoop_bounds (cfg : CryUnitCfg) (fd : ℚ) (hfd : 0 ≤ fd) :
    ∀ (bs : List Bool) (i : ℕ) (st : Option ℕ),
      (∀ s, st = some s → s ≤ i) →
      ∀ p ∈ silenceLoop cfg fd i st bs,
        0 ≤ p.1 ∧ p.1 ≤ p.2 ∧ p.2 ≤ ((i + bs.length : ℕ) : ℚ) * fd
  | [], i, none, _ => by intro p hp; simp [silenceLoop] at hp
  | [], i, some s, hst => by
      intro p hp
      rw [silenceLoop] at hp
      split at hp
      · rcases List.mem_singleton.mp hp with rfl
        have hsi : (s : ℚ) ≤ (i : ℚ) := by exact_mod_cast hst s rfl
        refine ⟨by positivity, ?_, ?_⟩
        · exact mul_le_mul_of_nonneg_right hsi hfd
        · simp
      · simp at hp
  | b :: rest, i, none, _ => by
      intro p hp
      rw [silenceLoop] at hp
      have hlen : ((i + 1 + rest.length : ℕ) : ℚ) = ((i + (b :: rest).length : ℕ) : ℚ) := by
        push_cast [List.length_cons]
        ring
      split at hp
      · have := silenceLoop_bounds cfg fd hfd rest (i + 1) (some i)
          (by intro s hs; cases hs; omega) p hp
        exact ⟨this.1, this.2.1, by rw [← hlen]; exact this.2.2⟩
      · have := silenceLoop_bounds cfg fd hfd rest (i + 1) none
          (by intro s hs; cases hs) p hp
        exact ⟨this.1, this.2.1, by rw [← hlen]; exact this.2.2⟩
  | b :: rest, i, some s, hst => by
      intro p hp
      rw [silenceLoop] at hp
      have hlen : ((i + 1 + rest.length : ℕ) : ℚ) = ((i + (b :: rest).length : ℕ) : ℚ) := by
        push_cast [List.length_cons]
        ring
      split at hp
      · have := silenceLoop_bounds cfg fd hfd rest (i + 1) (some s)
          (by intro s' hs'; cases hs'; exact Nat.le_succ_of_le (hst s rfl)) p hp
        exact ⟨this.1, this.2.1, by rw [← hlen]; exact this.2.2⟩
      · rcases List.mem_append.mp hp with hp' | hp'
        · have hmem : p ∈ (if ((i : ℚ) - (s : ℚ)) * fd ≥ cfg.min_silence_duration
              then [((s : ℚ) * fd, (i : ℚ) * fd)] else []) := hp'
          split at hmem
          · rcases List.mem_singleton.mp hmem with rfl
            have hsi : (s : ℚ) ≤ (i : ℚ) := by exact_mod_cast hst s rfl
            have hii : (i : ℚ) ≤ ((i + (b :: rest).length : ℕ) : ℚ) := by
              have h1 : (0 : ℚ) ≤ (rest.length : ℚ) := by positivity
              push_cast
              linarith
            refine ⟨by positivity, mul_le_mul_of_nonneg_right hsi hfd,
              mul_le_mul_of_nonneg_right hii hfd⟩
          · simp at hmem
        · have := silenceLoop_bounds cfg fd hfd rest (i + 1) none
            (by intro s' hs'; cases hs') p hp'
          exact ⟨this.1, this.2.1, by rw [← hlen]; exact this.2.2⟩

/-- Bounds of `_determine_unit_boundaries`'s fold: every produced boundary
`(us, ue)` has `us ≥ 0` and `ue ≤ total`. -/
theorem boundLoop_bounds (total : ℚ) :
    ∀ (segs : List (ℚ × ℚ)) (cur : ℚ),
      0 ≤ cur → (∀ p ∈ segs, 0 ≤ p.2 ∧ p.1 ≤ total) →
      ∀ q ∈ boundLoop total cur segs, 0 ≤ q.1 ∧ q.2 ≤ total
  | [], cur, hcur, _ => by
      intro q hq
      rw [boundLoop] at hq
      split at hq
      · rcases List.mem_singleton.mp hq with rfl
        exact ⟨hcur, le_refl _⟩
      · simp at hq
  | sseg :: rest, cur, hcur, hsegs => by
      intro q hq
      rw [boundLoop] at hq
      rcases List.mem_append.mp hq with hq' | hq'
      · have hmem : q ∈ (if sseg.1 > cur then [(cur, sseg.1)] else []) := hq'
        split at hmem
        · rcases List.mem_singleton.mp hmem with rfl
          exact ⟨hcur, (hsegs sseg (by simp)).2⟩
        · simp at hmem
      · exact boundLoop_bounds total rest sseg.2 (hsegs sseg (by simp)).1
          (fun p hp => hsegs p (List.mem_cons_of_mem _ hp)) q hq'

/-- The per-boundary loop keeps units inside
`[epStart, epStart + total]` whenever the boundaries are inside
`[0, total]`. -/
theorem unitsOfBoundaries_bounds (cfg : CryUnitCfg) (orc : AudioOracle)
    (episodeAudio energy : List ℚ) (epStart : ℚ) (fd : ℚ) (total : ℚ) :
    ∀ (bounds : List (ℚ × ℚ)),
      (∀ q ∈ bounds, 0 ≤ q.1 ∧ q.2 ≤ total) →
      ∀ u ∈ unitsOfBoundaries cfg orc episodeAudio energy epStart fd bounds,
        epStart ≤ u.start_time ∧ u.end_time ≤ epStart + total
  | [], _ => by intro u hu; simp [unitsOfBoundaries] at hu
  | (us, ue) :: rest, hb => by
      intro u hu
      simp only [unitsOfBoundaries] at hu
      have hrest := unitsOfBoundaries_bounds cfg orc episodeAudio energy epStart fd
        total rest (fun q hq => hb q (List.mem_cons_of_mem _ hq))
      split at hu
      · exact hrest u hu
      · split at hu
        · exact hrest u hu
        · rcases List.mem_cons.mp hu with rfl | hu'
          · have h0 := hb (us, ue) (by simp)
            exact ⟨by simpa using h0.1, by simpa using h0.2⟩
          · exact hrest u hu'

/-- C3 (amended): every unit returned by `detect_units_in_episode` starts no
earlier than the episode start, and ends no later than
`episode_start + F · (512 / sr)` where `F` is the number of frames of the
RMS envelope of the extracted slice.  (With librosa's centred framing
`F = 1 + n / 512` for an `n`-sample slice, so `F · 512` may exceed `n` and
the last unit may end after `episode_end_time`; containment in the episode
frame bound is what the code guarantees.) -/
theorem detectUnits_start_ge_and_frame_bound (cfg : CryUnitCfg)
    (orc : AudioOracle) (y energy : List ℚ) (epStart epEnd : ℚ) :
    ∀ u ∈ detectUnitsInEpisode cfg orc y energy epStart epEnd,
      epStart ≤ u.start_time ∧
      u.end_time ≤ epStart + (energy.length : ℚ) * frameDuration cfg.sr := by
  intro u hu
  have hfd : 0 ≤ frameDuration cfg.sr := by
    unfold frameDuration
    positivity
  simp only [detectUnitsInEpisode] at hu
  split at hu
  · simp at hu
  · have hsil : ∀ p ∈ findSilenceSegments cfg
        (energy.map (fun e => decide (e < cfg.silence_threshold)))
        (frameDuration cfg.sr),
        0 ≤ p.1 ∧ p.1 ≤ p.2 ∧
          p.2 ≤ (energy.length : ℚ) * frameDuration cfg.sr := by
      intro p hp
      have := silenceLoop_bounds cfg (frameDuration cfg.sr) hfd
        (energy.map (fun e => decide (e < cfg.silence_threshold))) 0 none
        (by intro s hs; cases hs) p hp
      simpa using this
    have hbounds : ∀ q ∈ determineUnitBoundaries
        (findSilenceSegments cfg
          (energy.map (fun e => decide (e < cfg.silence_threshold)))
          (frameDuration cfg.sr))
        ((energy.length : ℚ) * frameDuration cfg.sr),
        0 ≤ q.1 ∧ q.2 ≤ (energy.length : ℚ) * frameDuration cfg.sr := by
      intro q hq
      unfold determineUnitBoundaries at hq
      split at hq
      · rcases List.mem_singleton.mp hq with rfl
        refine ⟨le_refl _, le_refl _⟩
      · refine boundLoop_bounds _ _ 0 (le_refl _) ?_ q hq
        intro p hp
        have := hsil p hp
        exact ⟨le_trans this.1 this.2.1, le_trans this.2.1 this.2.2⟩
    exact unitsOfBoundaries_bounds cfg orc _ energy epStart (frameDuration cfg.sr)
      ((energy.length : ℚ) * frameDuration cfg.sr) _ hbounds u hu

/-- A run of non-silent frames produces no silence segment. -/
theorem silenceLoop_const_false (cfg : CryUnitCfg) (fd : ℚ) :
    ∀ (n i : ℕ), silenceLoop cfg fd i none (List.replicate n false) = []
  | 0, _ => rfl
  | n + 1, i => by
      rw [List.replicate_succ, silenceLoop, if_neg Bool.false_ne_true]
      exact silenceLoop_const_false cfg fd n (i + 1)

/-- Witness for C3: a 2048-sample constant-amplitude episode with a
silence-free 5-frame envelope yields a single unit, which respects the
episode start and the RMS frame bound `5 · 512/22050`. -/
theorem detectUnits_frame_bound_witness :
    detectUnitsInEpisode defaultUnitCfg ⟨fun _ => 0, fun _ => 0⟩
        (List.replicate 2048 1) (List.replicate (rmsNumFrames 2048) 1) 0
        (2048/22050) =
      [{ start_time := 0, end_time := 2560/22050, duration := 2560/22050,
         is_voiced := true, mean_energy := 1, peak_frequency := 0 }] ∧
    (0 : ℚ) ≤ (CryUnit.mk 0 (2560/22050) (2560/22050) true 1 0).start_time ∧
    (CryUnit.mk 0 (2560/22050) (2560/22050) true 1 0).end_time ≤
      0 + ((List.replicate (rmsNumFrames 2048) (1 : ℚ)).length : ℚ) *
        frameDuration defaultUnitCfg.sr := by
  have hlt1 : ¬((1:ℚ) < 1/100) := by norm_num
  have hz : (0:ℚ) < 1/10 := by norm_num
  have hms : ¬((1:ℚ) < 1/10000) := by norm_num
  have hne2048 : (List.replicate 2048 (1:ℚ)).isEmpty = false := by
    rw [List.isEmpty_eq_false_iff_exists_mem]
    exact ⟨1, List.mem_replicate.mpr ⟨by norm_num, rfl⟩⟩
  have hEq : detectUnitsInEpisode defaultUnitCfg ⟨fun _ => 0, fun _ => 0⟩
      (List.replicate 2048 1) (List.replicate (rmsNumFrames 2048) 1) 0
      (2048/22050) =
      [{ start_time := 0, end_time := 2560/22050, duration := 2560/22050,
         is_voiced := true, mean_energy := 1, peak_frequency := 0 }] := by
    norm_num [detectUnitsInEpisode, defaultUnitCfg, pyInt, pySlice, pySliceIndex,
      frameDuration, rmsNumFrames, findSilenceSegments, silenceLoop_const_false,
      determineUnitBoundaries, unitsOfBoundaries, classifyVoicing, meanSq,
      estimatePeakFrequency, npMean, List.take_replicate, List.map_replicate,
      List.sum_replicate, hlt1, hz, hms, hne2048]
  refine ⟨hEq, detectUnits_start_ge_and_frame_bound defaultUnitCfg
    ⟨fun _ => 0, fun _ => 0⟩ (List.replicate 2048 1)
    (List.replicate (rmsNumFrames 2048) 1) 0 (2048/22050) _ ?_⟩
  rw [hEq]
  exact List.mem_singleton_self _

/-- Counterexample to C3 as stated: a 2048-sample episode
(`episode_start_time = 0`, `episode_end_time = 2048/22050 ≈ 0.0929 s`) of a
constant unit-amplitude signal with a silence-free envelope yields one unit
ending at `5 · 512/22050 = 2560/22050 ≈ 0.1161 s`, which is *after* the
episode end: librosa's centred RMS framing gives `1 + 2048/512 = 5` frames
and the code takes `total_duration = len(energy) · 512/sr`. -/
theorem detectUnits_overshoots_episode_end :
    detectUnitsInEpisode defaultUnitCfg ⟨fun _ => 0, fun _ => 0⟩
        (List.replicate 2048 1) (List.replicate (rmsNumFrames 2048) 1) 0
        (2048/22050) =
      [{ start_time := 0, end_time := 2560/22050, duration := 2560/22050,
         is_voiced := true, mean_energy := 1, peak_frequency := 0 }] ∧
    ¬ ((2560/22050 : ℚ) ≤ 2048/22050) := by
  constructor
  · have hlt1 : ¬((1:ℚ) < 1/100) := by norm_num
    have hz : (0:ℚ) < 1/10 := by norm_num
    have hms : ¬((1:ℚ) < 1/10000) := by norm_num
    have hne2048 : (List.replicate 2048 (1:ℚ)).isEmpty = false := by
      rw [List.isEmpty_eq_false_iff_exists_mem]
      exact ⟨1, List.mem_replicate.mpr ⟨by norm_num, rfl⟩⟩
    norm_num [detectUnitsInEpisode, defaultUnitCfg, pyInt, pySlice, pySliceIndex,
      frameDuration, rmsNumFrames, findSilenceSegments, silenceLoop_const_false,
      determineUnitBoundaries, unitsOfBoundaries, classifyVoicing, meanSq,
      estimatePeakFrequency, npMean, List.take_replicate, List.map_replicate,
      List.sum_replicate, hlt1, hz, hms, hne2048]
  · norm_num

end BabyCry
